import Mathlib

/-!
# keyring: store facade, in-memory store and the two system adapters

A shallow embedding of `keyring/store.go`, `keyring/mem.go`,
`keyring/keyring_windows.go` and `keyring/keyring_linux.go`.

Conventions of the embedding

* a Go `string` is a sequence of bytes (`GoString`), `len` is its length and
  `<` is the bytewise lexical order (`strLess`);
* a Go `[]byte` is `Bytes`, where `none` is the nil slice;
* a Go `error` is `Option Error`, where `none` is the nil error; a Go result
  `(v, err)` is a pair;
* a method that can mutate its receiver returns the new state next to its
  result;
* a Go `map[string][]byte` is an association list; the order of the list is
  the (unspecified) iteration order of the map, and the keys of a map are
  pairwise distinct (`NodupKeys`).
-/

namespace keyring

/-! ## Data model -/

/-- One byte. -/
abbrev Byte := Fin 256

/-- A Go `string`: a sequence of bytes. -/
abbrev GoString := List Byte

/-- A Go `[]byte`; `none` is the nil slice. -/
abbrev Bytes := Option (List Byte)

/-- Go `len` on a `[]byte`: the nil slice has length zero. -/
def lenBytes : Bytes → Nat
  | none => 0
  | some b => b.length

/-- Go `error` values that occur in the package. `ErrLocked` and
`ErrItemValueTooLarge` are the package's own sentinels, `ErrNotFound` is the
sentinel of the secret-service client, `ErrElementNotFound` the one of the
credential-manager client, `Errorf` and `Wrapf` are the constructors of
`github.com/pkg/errors`, and `other` stands for any further error value. -/
inductive Error where
  | ErrLocked
  | ErrItemValueTooLarge
  | ErrNotFound
  | ErrElementNotFound
  | Errorf (msg : String)
  | Wrapf (err : Error) (msg : String)
  | other (code : Nat)
  deriving DecidableEq, Repr

/-- The function `errors.Cause`: the innermost error of a chain of wraps. -/
def Error.Cause : Error → Error
  | .Wrapf err _ => Error.Cause err
  | e => e

/-- The record `Item`: identifier, type tag and payload. -/
structure Item where
  ID : GoString
  Type_ : GoString
  Data : Bytes
  deriving DecidableEq, Repr

/-- The type `SecretKey` is a pointer to key bytes; `none` is the nil key. -/
abbrev SecretKey := Option (List Byte)

/-- The encryption capability used by `store.go`: `item.Encrypt(key)` and
`DecryptItem(b, key, id)`. Both live outside the translated files and are
taken as parameters. The result of `Encrypt` is converted with `[]byte(data)`
before it is stored, so it is a byte string. -/
structure Cipher where
  Encrypt : Item → SecretKey → GoString × Option Error
  DecryptItem : Bytes → SecretKey → GoString → Option Item × Option Error

/-- The interface `Store` over a backend state `σ` (the methods `Name` and
`IDs` play no part in what follows). -/
structure Store (σ : Type) where
  Get : σ → GoString → (Bytes × Option Error) × σ
  Set : σ → GoString → Bytes → Option Error × σ
  Delete : σ → GoString → (Bool × Option Error) × σ
  Exists : σ → GoString → (Bool × Option Error) × σ
  Reset : σ → Option Error × σ

/-- One call on a `Store`, as a recording backend sees it. -/
inductive Call where
  | Get (id : GoString)
  | Set (id : GoString) (data : Bytes)
  | Delete (id : GoString)
  | Exists (id : GoString)
  | Reset
  deriving DecidableEq, Repr

/-- A recording (spy) backend: every call is appended to a log and then
handed to the wrapped store. -/
def spy {σ : Type} (st : Store σ) : Store (σ × List Call) where
  Get := fun s id => ((st.Get s.1 id).1, ((st.Get s.1 id).2, s.2 ++ [Call.Get id]))
  Set := fun s id data =>
    ((st.Set s.1 id data).1, ((st.Set s.1 id data).2, s.2 ++ [Call.Set id data]))
  Delete := fun s id =>
    ((st.Delete s.1 id).1, ((st.Delete s.1 id).2, s.2 ++ [Call.Delete id]))
  Exists := fun s id =>
    ((st.Exists s.1 id).1, ((st.Exists s.1 id).2, s.2 ++ [Call.Exists id]))
  Reset := fun s => ((st.Reset s.1).1, ((st.Reset s.1).2, s.2 ++ [Call.Reset]))

/-! ## Strings and sorting (Go standard library) -/

/-- Go `<` on strings: bytewise lexical order. -/
def strLess : GoString → GoString → Bool
  | _, [] => false
  | [], _ :: _ => true
  | a :: as, b :: bs => decide (a < b) || (decide (a = b) && strLess as bs)

/-- The function `strings.HasPrefix`. -/
def strings.HasPrefix (s pfx : GoString) : Bool := pfx.isPrefixOf s

/-- The function `strings.Split` for a separator of one byte: the pieces of
`s` between the occurrences of `sep`; a string without `sep` gives one piece. -/
def strings.Split (s : GoString) (sep : Byte) : List GoString :=
  match s with
  | [] => [[]]
  | c :: cs =>
    if c = sep then [] :: strings.Split cs sep
    else
      match strings.Split cs sep with
      | [] => [[c]]
      | w :: ws => (c :: w) :: ws

/-- Insertion of one element into a sorted list, after the elements that are
not greater. -/
def sort.insert {α : Type} (less : α → α → Bool) (x : α) : List α → List α
  | [] => [x]
  | y :: ys => if less x y then x :: y :: ys else y :: sort.insert less x ys

/-- The function `sort.Slice(out, less)`, as an insertion sort. The library
sort is not stable; the listings sort by keys that are pairwise distinct (or
sort the keys themselves), and then every sorting algorithm returns the same
list (`ascending_perm_unique`). -/
def sort.Slice {α : Type} (less : α → α → Bool) : List α → List α
  | [] => []
  | x :: xs => sort.insert less x (sort.Slice less xs)

/-- The function `sort.Strings`. -/
def sort.Strings (ids : List GoString) : List GoString := sort.Slice strLess ids

/-! ## Go maps -/

/-- The keys of a map. -/
def goMapKeys (m : List (GoString × Bytes)) : List GoString := m.map Prod.fst

/-- The keys of a map are pairwise distinct. -/
def NodupKeys (m : List (GoString × Bytes)) : Prop := (goMapKeys m).Nodup

/-- The lookup `b, ok := m[id]`. -/
def goMapLookup (m : List (GoString × Bytes)) (id : GoString) : Option Bytes :=
  match m with
  | [] => none
  | e :: rest => if e.1 = id then some e.2 else goMapLookup rest id

/-- The statement `delete(m, id)`. -/
def goMapDelete (m : List (GoString × Bytes)) (id : GoString) : List (GoString × Bytes) :=
  m.filter (fun e => decide (e.1 ≠ id))

/-- The assignment `m[id] = data`. -/
def goMapInsert (m : List (GoString × Bytes)) (id : GoString) (data : Bytes) :
    List (GoString × Bytes) :=
  (id, data) :: goMapDelete m id

/-! ## store.go -/

/-- The constant `maxID`. -/
def maxID : Nat := 254

/-- The constant `maxType`. -/
def maxType : Nat := 32

/-- The constant `maxData`. -/
def maxData : Nat := 2048

/-- The function `decryptItem`. -/
def decryptItem (cipher : Cipher) (b : Bytes) (key : SecretKey) (id : GoString) :
    Option Item × Option Error :=
  if b = none then (none, none)
  else if (cipher.DecryptItem b key id).2 ≠ none then (none, (cipher.DecryptItem b key id).2)
  else ((cipher.DecryptItem b key id).1, none)

/-- The function `getItem`. -/
def getItem {σ : Type} (cipher : Cipher) (st : Store σ) (s : σ) (id : GoString)
    (key : SecretKey) : (Option Item × Option Error) × σ :=
  if key = none then ((none, some Error.ErrLocked), s)
  else if (st.Get s id).1.2 ≠ none then ((none, (st.Get s id).1.2), (st.Get s id).2)
  else if (st.Get s id).1.1 = none then ((none, none), (st.Get s id).2)
  else (decryptItem cipher (st.Get s id).1.1 key id, (st.Get s id).2)

/-- The function `setItem`. -/
def setItem {σ : Type} (cipher : Cipher) (st : Store σ) (s : σ) (item : Item)
    (key : SecretKey) : Option Error × σ :=
  if key = none then (some Error.ErrLocked, s)
  else if item.ID.length > maxID then (some Error.ErrItemValueTooLarge, s)
  else if item.Type_.length > maxType then (some Error.ErrItemValueTooLarge, s)
  else if lenBytes item.Data > maxData then (some Error.ErrItemValueTooLarge, s)
  else if (cipher.Encrypt item key).2 ≠ none then ((cipher.Encrypt item key).2, s)
  else if (cipher.Encrypt item key).1.length > 5 * 512 then
    (some Error.ErrItemValueTooLarge, s)
  else st.Set s item.ID (some (cipher.Encrypt item key).1)

/-! ## mem.go -/

/-- The struct `mem`. -/
structure mem where
  items : List (GoString × Bytes)
  deriving DecidableEq, Repr

/-- The constructor `NewMem`. -/
def NewMem : mem := { items := [] }

/-- The method `mem.Get`. -/
def mem.Get (k : mem) (id : GoString) : Bytes × Option Error :=
  if id = [] then (none, some (Error.Errorf "invalid id"))
  else
    match goMapLookup k.items id with
    | some b => (b, none)
    | none => (none, none)

/-- The method `mem.Set`. -/
def mem.Set (k : mem) (id : GoString) (data : Bytes) : Option Error × mem :=
  if id = [] then (some (Error.Errorf "invalid id"), k)
  else (none, { items := goMapInsert k.items id data })

/-- The method `mem.Reset`. -/
def mem.Reset (_k : mem) : Option Error × mem := (none, { items := [] })

/-- The method `mem.Exists`. -/
def mem.Exists (k : mem) (id : GoString) : Bool × Option Error :=
  if id = [] then (false, some (Error.Errorf "invalid id"))
  else ((goMapLookup k.items id).isSome, none)

/-- The method `mem.Delete`. -/
def mem.Delete (k : mem) (id : GoString) : (Bool × Option Error) × mem :=
  if id = [] then ((false, some (Error.Errorf "invalid id")), k)
  else if (goMapLookup k.items id).isSome then
    ((true, none), { items := goMapDelete k.items id })
  else ((false, none), k)

/-- The options of a listing, as `docs.NewOptions` returns them. -/
structure Options where
  Prefix : GoString
  NoData : Bool
  deriving DecidableEq, Repr

/-- The options of a listing called with no option. -/
def noOptions : Options := { Prefix := [], NoData := false }

/-- The record `docs.Document`. -/
structure Document where
  Path : GoString
  Data : Bytes
  deriving DecidableEq, Repr

/-- The comparison handed to `sort.Slice` by every `Documents`. -/
def lessPath (a b : Document) : Bool := strLess a.Path b.Path

/-- The method `mem.Documents`. -/
def mem.Documents (k : mem) (opts : Options) : List Document × Option Error :=
  (sort.Slice lessPath
    (k.items.filterMap (fun e =>
      if strings.HasPrefix e.1 opts.Prefix then
        some { Path := e.1, Data := if !opts.NoData then e.2 else none }
      else none)), none)

/-- The in-memory store as a `Store`. -/
def memStore : Store mem where
  Get := fun k id => (mem.Get k id, k)
  Set := fun k id data => mem.Set k id data
  Delete := fun k id => mem.Delete k id
  Exists := fun k id => (mem.Exists k id, k)
  Reset := fun k => mem.Reset k

/-- A run of `Set` calls on the in-memory store, all of which succeed;
`none` as soon as one of them returns an error. -/
def mem.setAll (k : mem) : List (GoString × Bytes) → Option mem
  | [] => some k
  | c :: rest =>
    if (mem.Set k c.1 c.2).1 = none then mem.setAll (mem.Set k c.1 c.2).2 rest else none

/-! ## keyring_windows.go -/

/-- A generic credential of the credential manager: target name and blob. -/
structure Credential where
  TargetName : GoString
  CredentialBlob : Bytes
  deriving DecidableEq, Repr

/-- The credential-manager client (`wincred`) over a physical store `ω`:
`GetGenericCredential`, the method `Write` of a credential and `List`. It is
an external library and is taken as a parameter. -/
structure Wincred (ω : Type) where
  GetGenericCredential : ω → GoString → Option Credential × Option Error
  Write : ω → Credential → Option Error × ω
  ListAll : ω → List Credential × Option Error

/-- The byte of the separator `"/"`. -/
def slash : Byte := 47

namespace windows

/-- The struct `sys` of the credential-manager adapter. -/
structure sys where
  service : GoString
  deriving DecidableEq, Repr

/-- The method `sys.Get` of the credential-manager adapter. -/
def sys.Get {ω : Type} (w : Wincred ω) (k : sys) (st : ω) (id : GoString) :
    Bytes × Option Error :=
  match (w.GetGenericCredential st (k.service ++ [slash] ++ id)).2 with
  | some err =>
    if err.Cause = Error.ErrElementNotFound then (none, none)
    else (none, some (Error.Wrapf err "wincred GetGenericCredential failed"))
  | none =>
    match (w.GetGenericCredential st (k.service ++ [slash] ++ id)).1 with
    | none => (none, none)
    | some cred => (cred.CredentialBlob, none)

/-- The method `sys.Set` of the credential-manager adapter. -/
def sys.Set {ω : Type} (w : Wincred ω) (k : sys) (st : ω) (id : GoString) (data : Bytes) :
    Option Error × ω :=
  match (w.Write st { TargetName := k.service ++ [slash] ++ id, CredentialBlob := data }).1 with
  | some err =>
    (some (Error.Wrapf err "wincred Write failed"),
      (w.Write st { TargetName := k.service ++ [slash] ++ id, CredentialBlob := data }).2)
  | none =>
    (none, (w.Write st { TargetName := k.service ++ [slash] ++ id, CredentialBlob := data }).2)

/-- The loop of `sys.Documents` over the listed credentials; `out` is the
slice built so far. An error of `Get` ends the loop with `(nil, err)`. -/
def sys.Documents.loop {ω : Type} (w : Wincred ω) (k : sys) (st : ω) (opts : Options) :
    List Credential → List Document → List Document × Option Error
  | [], out => (out, none)
  | cred :: rest, out =>
    if strings.HasPrefix cred.TargetName (k.service ++ [slash]) then
      if opts.Prefix ≠ [] ∧
          ¬ strings.HasPrefix (cred.TargetName.drop (k.service ++ [slash]).length) opts.Prefix then
        sys.Documents.loop w k st opts rest out
      else if !opts.NoData then
        if (sys.Get w k st (cred.TargetName.drop (k.service ++ [slash]).length)).2 ≠ none then
          ([], (sys.Get w k st (cred.TargetName.drop (k.service ++ [slash]).length)).2)
        else
          sys.Documents.loop w k st opts rest
            (out ++ [{ Path := cred.TargetName.drop (k.service ++ [slash]).length,
                       Data := (sys.Get w k st
                         (cred.TargetName.drop (k.service ++ [slash]).length)).1 }])
      else
        sys.Documents.loop w k st opts rest
          (out ++ [{ Path := cred.TargetName.drop (k.service ++ [slash]).length, Data := none }])
    else sys.Documents.loop w k st opts rest out

/-- The method `sys.Documents` of the credential-manager adapter. -/
def sys.Documents {ω : Type} (w : Wincred ω) (k : sys) (st : ω) (opts : Options) :
    List Document × Option Error :=
  if (w.ListAll st).2 ≠ none then ([], (w.ListAll st).2)
  else if (sys.Documents.loop w k st opts (w.ListAll st).1 []).2 ≠ none then
    sys.Documents.loop w k st opts (w.ListAll st).1 []
  else (sort.Slice lessPath (sys.Documents.loop w k st opts (w.ListAll st).1 []).1, none)

end windows

/-- The physical store of the credential manager as a map from target name to
blob, shared by all services: reading an absent target gives
`ErrElementNotFound`, writing is an upsert, listing gives every credential
(in the order of the list, which stands for the unspecified order of the
native enumeration). -/
def mapWincred : Wincred (List (GoString × Bytes)) where
  GetGenericCredential := fun st target =>
    match goMapLookup st target with
    | some b => (some { TargetName := target, CredentialBlob := b }, none)
    | none => (none, some Error.ErrElementNotFound)
  Write := fun st cred => (none, goMapInsert st cred.TargetName cred.CredentialBlob)
  ListAll := fun st => (st.map (fun e => { TargetName := e.1, CredentialBlob := e.2 }), none)

/-- A run of `Set` calls `(service, id, data)` on the shared physical store,
each through the adapter of its own service. -/
def windowsSetAll (st : List (GoString × Bytes)) :
    List (GoString × GoString × Bytes) → List (GoString × Bytes)
  | [] => st
  | c :: rest =>
    windowsSetAll (windows.sys.Set mapWincred { service := c.1 } st c.2.1 c.2.2).2 rest

/-! ## keyring_linux.go -/

/-- The secret-service client over object paths `π`: `Unlock` of the login
collection, `SearchItems` by service attribute and `GetLabel`. It is an
external library and is taken as a parameter. -/
structure SecretService (π : Type) where
  Unlock : Option Error
  SearchItems : GoString → List π × Option Error
  GetLabel : π → GoString × Option Error

/-- The byte of the single quote. -/
def quote : Byte := 39

namespace linux

/-- The struct `sys` of the secret-service adapter. -/
structure sys where
  service : GoString
  deriving DecidableEq, Repr

/-- The method `sys.Get` of the secret-service adapter; `gokeyringGet` is the
client call `gokeyring.Get(service, id)`. -/
def sys.Get (gokeyringGet : GoString → GoString → GoString × Option Error) (k : sys)
    (id : GoString) : Bytes × Option Error :=
  match (gokeyringGet k.service id).2 with
  | some err => if err = Error.ErrNotFound then (none, none) else (none, some err)
  | none => (some (gokeyringGet k.service id).1, none)

/-- The function `objectPaths`. -/
def objectPaths {π : Type} (svc : SecretService π) (service : GoString) :
    List π × Option Error :=
  if svc.Unlock ≠ none then ([], svc.Unlock) else svc.SearchItems service

/-- The loop of `secretServiceList` over the object paths; `ids` is the slice
built so far. An error of `GetLabel` ends the loop with `(nil, err)`. -/
def secretServiceList.loop {π : Type} (svc : SecretService π) :
    List π → List GoString → List GoString × Option Error
  | [], ids => (ids, none)
  | p :: rest, ids =>
    if (svc.GetLabel p).2 ≠ none then ([], (svc.GetLabel p).2)
    else if (strings.Split (svc.GetLabel p).1 quote).length < 2 then
      secretServiceList.loop svc rest ids
    else
      secretServiceList.loop svc rest
        (ids ++ [((strings.Split (svc.GetLabel p).1 quote).drop 1).headD []])

/-- The function `secretServiceList`. -/
def secretServiceList {π : Type} (svc : SecretService π) (service : GoString) :
    List GoString × Option Error :=
  if (objectPaths svc service).2 ≠ none then ([], (objectPaths svc service).2)
  else if (secretServiceList.loop svc (objectPaths svc service).1 []).2 ≠ none then
    secretServiceList.loop svc (objectPaths svc service).1 []
  else (sort.Strings (secretServiceList.loop svc (objectPaths svc service).1 []).1, none)

end linux

/-- The label the secret-service client gives an entry:
`Password for '<id>' on '<service>'`. -/
def passwordLabel (id service : GoString) : GoString :=
  [80, 97, 115, 115, 119, 111, 114, 100, 32, 102, 111, 114, 32, 39] ++ id ++
    [39, 32, 111, 110, 32, 39] ++ service ++ [39]

/-! ## Reference readings of the label decoding -/

/-- What follows the first occurrence of `q` in `s`, if there is one. -/
def afterFirst (q : Byte) : GoString → Option GoString
  | [] => none
  | c :: cs => if c = q then some cs else afterFirst q cs

/-- What precedes the first occurrence of `q` in `s`; all of `s` when `q` does
not occur. -/
def upTo (q : Byte) : GoString → GoString
  | [] => []
  | c :: cs => if c = q then [] else c :: upTo q cs

/-- The substring between the first pair of single quotes of a label; `none`
when the label has no such pair. -/
def betweenFirstQuotes (label : GoString) : Option GoString :=
  match afterFirst quote label with
  | none => none
  | some rest => if quote ∈ rest then some (upTo quote rest) else none

/-- What the loop keeps of a label: the text after its first single quote, up
to the next single quote or else to the end; `none` for a label without a
single quote. -/
def afterFirstQuote (label : GoString) : Option GoString :=
  (afterFirst quote label).map (upTo quote)

/-- A secret service that holds exactly the given labels. -/
def labelService (labels : List GoString) : SecretService GoString where
  Unlock := none
  SearchItems := fun _ => (labels, none)
  GetLabel := fun p => (p, none)

/-! ## A small cipher for concrete runs -/

/-- A cipher with `DecryptItem (Encrypt item key) key item.ID = item` for
every item whose type tag has no zero byte and whose payload is not nil: the
ciphertext is the type tag, a zero byte and the payload. -/
def plainCipher : Cipher where
  Encrypt := fun item _ =>
    (item.Type_ ++ 0 :: (match item.Data with | some d => d | none => []), none)
  DecryptItem := fun b _ id =>
    match b with
    | none => (none, some (Error.other 0))
    | some c =>
      (some { ID := id, Type_ := c.takeWhile (fun x => decide (x ≠ 0)),
              Data := some ((c.dropWhile (fun x => decide (x ≠ 0))).drop 1) }, none)

/-- A non-nil secret key. -/
def exampleKey : SecretKey := some [1]

/-- The item `ID "a"`, `Type "pw"`, `Data "secret1"`. -/
def exampleItem : Item :=
  { ID := [97], Type_ := [112, 119], Data := some [115, 101, 99, 114, 101, 116, 49] }

/-- An item whose payload has 2049 bytes. -/
def largeItem : Item :=
  { ID := [97], Type_ := [112, 119], Data := some (List.replicate 2049 0) }

/-- An item whose ID, Type and Data sit exactly at the ceilings. -/
def ceilingItem : Item :=
  { ID := List.replicate 254 97, Type_ := List.replicate 32 112,
    Data := some (List.replicate 2048 1) }

/-- An item within the ceilings whose ID is the empty string. -/
def emptyIDItem : Item := { ID := [], Type_ := [112, 119], Data := some [120] }

/-! ## The order on strings -/

theorem strLess_irrefl (a : GoString) : strLess a a = false := by
  induction a with
  | nil => rfl
  | cons x xs ih => simp [strLess, ih]

theorem strLess_trans (a b c : GoString) (hab : strLess a b = true) (hbc : strLess b c = true) :
    strLess a c = true := by
  induction a generalizing b c with
  | nil =>
    cases b with
    | nil => simp [strLess] at hab
    | cons y ys =>
      cases c with
      | nil => simp [strLess] at hbc
      | cons z zs => simp [strLess]
  | cons x xs ih =>
    cases b with
    | nil => simp [strLess] at hab
    | cons y ys =>
      cases c with
      | nil => simp [strLess] at hbc
      | cons z zs =>
        simp only [strLess, Bool.or_eq_true, Bool.and_eq_true, decide_eq_true_eq] at hab hbc ⊢
        rcases hab with hxy | ⟨hxy, hr⟩
        · rcases hbc with hyz | ⟨hyz, _⟩
          · exact Or.inl (lt_trans hxy hyz)
          · exact Or.inl (hyz ▸ hxy)
        · rcases hbc with hyz | ⟨hyz, hr2⟩
          · exact Or.inl (hxy ▸ hyz)
          · exact Or.inr ⟨hxy.trans hyz, ih ys zs hr hr2⟩

theorem strLess_total (a b : GoString) (hab : strLess a b = false) (hba : strLess b a = false) :
    a = b := by
  induction a generalizing b with
  | nil =>
    cases b with
    | nil => rfl
    | cons y ys => simp [strLess] at hab
  | cons x xs ih =>
    cases b with
    | nil => simp [strLess] at hba
    | cons y ys =>
      simp only [strLess, Bool.or_eq_false_iff, Bool.and_eq_false_iff, decide_eq_false_iff_not,
        not_lt] at hab hba
      have hxy : x = y := le_antisymm hba.1 hab.1
      subst hxy
      simp only [not_true_eq_false, false_or] at hab hba
      rw [ih ys hab.2 hba.2]

/-! ## Insertion sort -/

theorem sort_insert_perm {α : Type} (less : α → α → Bool) (x : α) (l : List α) :
    (sort.insert less x l).Perm (x :: l) := by
  induction l with
  | nil => exact List.Perm.refl _
  | cons y ys ih =>
    unfold sort.insert
    split
    · exact List.Perm.refl _
    · exact (List.Perm.cons y ih).trans (List.Perm.swap x y ys)

theorem sort_Slice_perm {α : Type} (less : α → α → Bool) (l : List α) :
    (sort.Slice less l).Perm l := by
  induction l with
  | nil => exact List.Perm.refl _
  | cons x xs ih =>
    exact (sort_insert_perm less x (sort.Slice less xs)).trans (List.Perm.cons x ih)

theorem sort_insert_sorted {α : Type} (less : α → α → Bool)
    (hirr : ∀ a, less a a = false)
    (htr : ∀ a b c, less a b = true → less b c = true → less a c = true)
    (x : α) (l : List α) (hl : l.Pairwise (fun a b => less b a = false)) :
    (sort.insert less x l).Pairwise (fun a b => less b a = false) := by
  induction l with
  | nil => simp [sort.insert]
  | cons y ys ih =>
    have hy := (List.pairwise_cons.1 hl).1
    have hys := (List.pairwise_cons.1 hl).2
    unfold sort.insert
    split
    · rename_i hxy
      refine List.pairwise_cons.2 ⟨?_, hl⟩
      intro z hz
      cases hzx : less z x with
      | false => rfl
      | true =>
        have hzy : less z y = true := htr z x y hzx hxy
        rcases List.mem_cons.1 hz with rfl | hz
        · rw [hirr] at hzy; exact absurd hzy (by simp)
        · rw [hy z hz] at hzy; exact absurd hzy (by simp)
    · rename_i hxy
      refine List.pairwise_cons.2 ⟨?_, ih hys⟩
      intro z hz
      rcases List.mem_cons.1 ((sort_insert_perm less x ys).mem_iff.1 hz) with rfl | hz
      · simpa using hxy
      · exact hy z hz

theorem sort_Slice_sorted {α : Type} (less : α → α → Bool)
    (hirr : ∀ a, less a a = false)
    (htr : ∀ a b c, less a b = true → less b c = true → less a c = true)
    (l : List α) : (sort.Slice less l).Pairwise (fun a b => less b a = false) := by
  induction l with
  | nil => exact List.Pairwise.nil
  | cons x xs ih => exact sort_insert_sorted less hirr htr x _ ih

/-- A list of documents sorted by `lessPath` whose paths are pairwise
distinct has strictly ascending paths. -/
theorem strictly_ascending_of_sorted (l : List GoString)
    (hs : l.Pairwise (fun a b => strLess b a = false)) (hn : l.Nodup) :
    l.Pairwise (fun a b => strLess a b = true) := by
  induction l with
  | nil => exact List.Pairwise.nil
  | cons x xs ih =>
    have h1 := List.pairwise_cons.1 hs
    have h2 := List.nodup_cons.1 hn
    refine List.pairwise_cons.2 ⟨?_, ih h1.2 h2.2⟩
    intro z hz
    cases hxz : strLess x z with
    | true => rfl
    | false =>
      have : x = z := strLess_total x z hxz (h1.1 z hz)
      exact absurd (this ▸ hz) h2.1

/-- Two ascending lists of strings with the same elements are equal: the
result of sorting strings does not depend on the sorting algorithm. -/
theorem ascending_perm_unique (l1 l2 : List GoString) (hp : l1.Perm l2)
    (h1 : l1.Pairwise (fun a b => strLess b a = false))
    (h2 : l2.Pairwise (fun a b => strLess b a = false)) : l1 = l2 := by
  haveI : IsAntisymm GoString (fun a b => strLess b a = false) :=
    ⟨fun a b hab hba => strLess_total a b hba hab⟩
  exact List.eq_of_perm_of_sorted hp h1 h2

theorem sort_Slice_lessPath_paths (docs : List Document) :
    ((sort.Slice lessPath docs).map Document.Path).Pairwise (fun a b => strLess b a = false) := by
  have h := sort_Slice_sorted lessPath (fun a => strLess_irrefl a.Path)
    (fun a b c => strLess_trans a.Path b.Path c.Path) docs
  exact List.pairwise_map.2 h

/-! ## Go maps: lookup, insertion, deletion -/

theorem goMapLookup_eq_none_iff (m : List (GoString × Bytes)) (id : GoString) :
    goMapLookup m id = none ↔ id ∉ goMapKeys m := by
  induction m with
  | nil => simp [goMapLookup, goMapKeys]
  | cons e rest ih =>
    unfold goMapLookup
    by_cases h : e.1 = id
    · simp [h, goMapKeys]
    · have h2 : ¬ id = e.1 := fun hh => h hh.symm
      simp only [h, if_false, ih, goMapKeys, List.map_cons, List.mem_cons, not_or, h2,
        not_false_eq_true, true_and]

theorem goMapLookup_isSome_iff (m : List (GoString × Bytes)) (id : GoString) :
    (goMapLookup m id).isSome = true ↔ id ∈ goMapKeys m := by
  rw [← not_iff_not, ← goMapLookup_eq_none_iff]
  cases goMapLookup m id <;> simp

theorem not_mem_goMapKeys_goMapDelete (m : List (GoString × Bytes)) (id : GoString) :
    id ∉ goMapKeys (goMapDelete m id) := by
  simp [goMapKeys, goMapDelete, List.mem_filter]

theorem goMapLookup_goMapInsert_self (m : List (GoString × Bytes)) (id : GoString)
    (data : Bytes) : goMapLookup (goMapInsert m id data) id = some data := by
  simp [goMapInsert, goMapLookup]

theorem goMapLookup_of_mem (m : List (GoString × Bytes)) (e : GoString × Bytes)
    (hk : NodupKeys m) (he : e ∈ m) : goMapLookup m e.1 = some e.2 := by
  induction m with
  | nil => simp at he
  | cons x xs ih =>
    simp only [NodupKeys, goMapKeys, List.map_cons, List.nodup_cons] at hk
    unfold goMapLookup
    rcases List.mem_cons.1 he with rfl | hin
    · simp
    · have hx : x.1 ≠ e.1 := by
        intro hxe
        exact hk.1 (hxe ▸ List.mem_map_of_mem Prod.fst hin)
      simp only [hx, if_false]
      exact ih hk.2 hin

/-! ## store.go: locked state and size ceilings -/

/-- C1: with no secret key (`key` nil) `getItem` and `setItem` return
`ErrLocked` and leave the store as it was; on a recording store the log of
calls is unchanged, so no call reaches the store. -/
theorem locked_getItem_setItem {σ : Type} (cipher : Cipher) (st : Store σ) (s : σ)
    (log : List Call) (id : GoString) (item : Item) :
    getItem cipher st s id none = ((none, some Error.ErrLocked), s) ∧
    setItem cipher st s item none = (some Error.ErrLocked, s) ∧
    getItem cipher (spy st) (s, log) id none = ((none, some Error.ErrLocked), (s, log)) ∧
    setItem cipher (spy st) (s, log) item none = (some Error.ErrLocked, (s, log)) := by
  simp [getItem, setItem]

/-- C2: with a key, `setItem` on an item whose ID is longer than 254 bytes,
or whose Type is longer than 32 bytes, or whose Data is longer than 2048 bytes
returns `ErrItemValueTooLarge` and leaves the store as it was; on a recording
store the log of calls is unchanged, so `Set` is not called. -/
theorem setItem_too_large {σ : Type} (cipher : Cipher) (st : Store σ) (s : σ)
    (log : List Call) (item : Item) (key : SecretKey) (hkey : key ≠ none)
    (hsize : 254 < item.ID.length ∨ 32 < item.Type_.length ∨ 2048 < lenBytes item.Data) :
    setItem cipher st s item key = (some Error.ErrItemValueTooLarge, s) ∧
    setItem cipher (spy st) (s, log) item key =
      (some Error.ErrItemValueTooLarge, (s, log)) := by
  unfold setItem
  simp only [hkey, if_false, maxID, maxType, maxData, gt_iff_lt]
  rcases hsize with h | h | h
  · simp [h]
  · by_cases h1 : 254 < item.ID.length <;> simp [h, h1]
  · by_cases h1 : 254 < item.ID.length <;> by_cases h2 : 32 < item.Type_.length <;>
      simp [h, h1, h2]

/-- A payload of 2049 bytes is refused by `setItem` before the store is
touched. -/
theorem setItem_too_large_witness :
    setItem plainCipher memStore NewMem largeItem exampleKey =
      (some Error.ErrItemValueTooLarge, NewMem) ∧
    setItem plainCipher (spy memStore) (NewMem, []) largeItem exampleKey =
      (some Error.ErrItemValueTooLarge, (NewMem, [])) :=
  setItem_too_large plainCipher memStore NewMem [] largeItem exampleKey
    (by simp [exampleKey])
    (Or.inr (Or.inr (by simp only [largeItem, lenBytes, List.length_replicate]; decide)))

/-- C3: with a key and an item within the ceilings (254, 32 and 2048 bytes,
the ceilings included) whose encryption succeeds with ciphertext `c`: when
`c` is longer than 2560 bytes `setItem` returns `ErrItemValueTooLarge`
without a call on the store, and otherwise `setItem` is exactly one call of
the store's `Set` with `(item.ID, c)`, whose result it returns. -/
theorem setItem_within_limits {σ : Type} (cipher : Cipher) (st : Store σ) (s : σ)
    (log : List Call) (item : Item) (key : SecretKey) (c : GoString) (hkey : key ≠ none)
    (hid : item.ID.length ≤ 254) (htype : item.Type_.length ≤ 32)
    (hdata : lenBytes item.Data ≤ 2048) (henc : cipher.Encrypt item key = (c, none)) :
    (2560 < c.length →
      setItem cipher st s item key = (some Error.ErrItemValueTooLarge, s) ∧
      setItem cipher (spy st) (s, log) item key =
        (some Error.ErrItemValueTooLarge, (s, log))) ∧
    (c.length ≤ 2560 →
      setItem cipher st s item key = st.Set s item.ID (some c) ∧
      setItem cipher (spy st) (s, log) item key =
        ((st.Set s item.ID (some c)).1,
          ((st.Set s item.ID (some c)).2, log ++ [Call.Set item.ID (some c)]))) := by
  unfold setItem
  simp only [hkey, if_false, maxID, maxType, maxData, gt_iff_lt, not_lt.2 hid, not_lt.2 htype,
    not_lt.2 hdata, henc, ne_eq, not_true_eq_false]
  constructor
  · intro h
    simp [h]
  · intro h
    simp [not_lt.2 h, spy]

/-- An item at the three ceilings, whose ciphertext under `plainCipher` has
2081 bytes, is handed to the store's `Set` once. -/
theorem setItem_within_limits_witness :
    setItem plainCipher memStore NewMem ceilingItem exampleKey =
      memStore.Set NewMem ceilingItem.ID
        (some (plainCipher.Encrypt ceilingItem exampleKey).1) ∧
    setItem plainCipher (spy memStore) (NewMem, []) ceilingItem exampleKey =
      ((memStore.Set NewMem ceilingItem.ID
          (some (plainCipher.Encrypt ceilingItem exampleKey).1)).1,
        ((memStore.Set NewMem ceilingItem.ID
          (some (plainCipher.Encrypt ceilingItem exampleKey).1)).2,
          [] ++ [Call.Set ceilingItem.ID
            (some (plainCipher.Encrypt ceilingItem exampleKey).1)])) :=
  (setItem_within_limits plainCipher memStore NewMem [] ceilingItem exampleKey
    (plainCipher.Encrypt ceilingItem exampleKey).1
    (by simp [exampleKey])
    (by simp only [ceilingItem, List.length_replicate]; decide)
    (by simp only [ceilingItem, List.length_replicate]; decide)
    (by simp only [ceilingItem, lenBytes, List.length_replicate]; decide) rfl).2
    (by simp only [plainCipher, ceilingItem, List.length_append, List.length_cons,
          List.length_replicate]; decide)

/-! ## Round trip over the in-memory store -/

/-- C4 fails as stated: the item with the empty ID is within the ceilings
and `plainCipher` decrypts its ciphertext back to it, yet `setItem` on the
in-memory store returns the error `invalid id`. -/
theorem roundtrip_fails_on_empty_ID :
    exampleKey ≠ none ∧ emptyIDItem.ID.length ≤ 254 ∧ emptyIDItem.Type_.length ≤ 32 ∧
    lenBytes emptyIDItem.Data ≤ 2048 ∧
    (plainCipher.Encrypt emptyIDItem exampleKey).2 = none ∧
    (plainCipher.Encrypt emptyIDItem exampleKey).1.length ≤ 2560 ∧
    plainCipher.DecryptItem (some (plainCipher.Encrypt emptyIDItem exampleKey).1) exampleKey
      emptyIDItem.ID = (some emptyIDItem, none) ∧
    setItem plainCipher memStore NewMem emptyIDItem exampleKey =
      (some (Error.Errorf "invalid id"), NewMem) := by
  refine ⟨by simp [exampleKey], by decide, by decide, by decide, rfl, by decide, by decide, ?_⟩
  decide

/-- C4, amended: for an item with a non-empty ID within the ceilings and a
key, when the cipher encrypts the item to a ciphertext `c` of at most 2560
bytes and decrypts `c` back to the item, `setItem` on the in-memory store
succeeds and a following `getItem` of `item.ID` returns exactly the item. -/
theorem setItem_getItem_roundtrip (cipher : Cipher) (k : mem) (item : Item) (key : SecretKey)
    (c : GoString) (hkey : key ≠ none) (hne : item.ID ≠ [])
    (hid : item.ID.length ≤ 254) (htype : item.Type_.length ≤ 32)
    (hdata : lenBytes item.Data ≤ 2048) (henc : cipher.Encrypt item key = (c, none))
    (hlen : c.length ≤ 2560)
    (hdec : cipher.DecryptItem (some c) key item.ID = (some item, none)) :
    (setItem cipher memStore k item key).1 = none ∧
    getItem cipher memStore (setItem cipher memStore k item key).2 item.ID key =
      ((some item, none), (setItem cipher memStore k item key).2) := by
  have hset : setItem cipher memStore k item key =
      (none, { items := goMapInsert k.items item.ID (some c) }) := by
    unfold setItem
    simp only [hkey, if_false, maxID, maxType, maxData, gt_iff_lt, not_lt.2 hid,
      not_lt.2 htype, not_lt.2 hdata, henc, ne_eq, not_true_eq_false]
    simp [not_lt.2 hlen, memStore, mem.Set, hne]
  rw [hset]
  refine ⟨rfl, ?_⟩
  unfold getItem
  simp [hkey, memStore, mem.Get, hne, goMapLookup_goMapInsert_self, decryptItem, hdec]

/-- The example of the specification: after storing `ID "a"`, `Type "pw"`,
`Data "secret1"`, getting `"a"` returns that item. -/
theorem setItem_getItem_roundtrip_witness :
    (setItem plainCipher memStore NewMem exampleItem exampleKey).1 = none ∧
    getItem plainCipher memStore (setItem plainCipher memStore NewMem exampleItem exampleKey).2
        exampleItem.ID exampleKey =
      ((some exampleItem, none),
        (setItem plainCipher memStore NewMem exampleItem exampleKey).2) :=
  setItem_getItem_roundtrip plainCipher NewMem exampleItem exampleKey
    (plainCipher.Encrypt exampleItem exampleKey).1
    (by simp [exampleKey]) (by decide) (by decide) (by decide) (by decide) rfl (by decide)
    (by decide)

/-! ## Absence -/

/-- C5 fails as stated: the empty id is not stored in the empty in-memory
store, and `Get` of it returns the error `invalid id`. -/
theorem mem_Get_empty_id_is_error :
    ([] : GoString) ∉ goMapKeys NewMem.items ∧
    mem.Get NewMem [] = (none, some (Error.Errorf "invalid id")) := by
  constructor
  · simp [goMapKeys, NewMem]
  · simp [mem.Get]

/-- C5, amended: `Get` of an id that is not stored returns nil bytes and no
error, for the in-memory store when the id is not the empty string (in any
state), for the secret-service adapter when the client reports `ErrNotFound`,
and for the credential-manager adapter when the client reports an error whose
cause is `ErrElementNotFound`, which is what the physical store does for a
target name it does not hold. -/
theorem Get_absent :
    (∀ (k : mem) (id : GoString), id ≠ [] → id ∉ goMapKeys k.items →
      mem.Get k id = (none, none)) ∧
    (∀ (gokeyringGet : GoString → GoString → GoString × Option Error) (k : linux.sys)
      (id s : GoString), gokeyringGet k.service id = (s, some Error.ErrNotFound) →
      linux.sys.Get gokeyringGet k id = (none, none)) ∧
    (∀ (ω : Type) (w : Wincred ω) (k : windows.sys) (st : ω) (id : GoString)
      (cred : Option Credential) (err : Error),
      w.GetGenericCredential st (k.service ++ [slash] ++ id) = (cred, some err) →
      err.Cause = Error.ErrElementNotFound → windows.sys.Get w k st id = (none, none)) ∧
    (∀ (st : List (GoString × Bytes)) (k : windows.sys) (id : GoString),
      k.service ++ [slash] ++ id ∉ goMapKeys st →
      windows.sys.Get mapWincred k st id = (none, none)) := by
  refine ⟨?_, ?_, ?_, ?_⟩
  · intro k id hne hnot
    simp [mem.Get, hne, (goMapLookup_eq_none_iff k.items id).2 hnot]
  · intro g k id s h
    simp [linux.sys.Get, h]
  · intro ω w k st id cred err h hc
    unfold windows.sys.Get
    rw [h]
    simp [hc]
  · intro st k id hnot
    have hl := (goMapLookup_eq_none_iff st _).2 hnot
    unfold windows.sys.Get
    simp only [mapWincred, hl]
    simp [Error.Cause]

/-- The id `"a"` is absent from the empty in-memory store, from a secret
service that reports `ErrNotFound`, and from an empty credential store. -/
theorem Get_absent_witness :
    mem.Get NewMem [97] = (none, none) ∧
    linux.sys.Get (fun _ _ => ([], some Error.ErrNotFound)) { service := [115] } [97] =
      (none, none) ∧
    windows.sys.Get mapWincred { service := [115] } [] [97] = (none, none) ∧
    windows.sys.Get mapWincred { service := [115] } [([98], none)] [97] = (none, none) :=
  ⟨Get_absent.1 NewMem [97] (by decide) (by decide),
   Get_absent.2.1 (fun _ _ => ([], some Error.ErrNotFound)) { service := [115] } [97] [] rfl,
   Get_absent.2.2.1 _ mapWincred { service := [115] } [] [97] none Error.ErrElementNotFound
     rfl rfl,
   Get_absent.2.2.2 [([98], none)] { service := [115] } [97] (by decide)⟩

/-! ## Delete -/

/-- C6 fails as stated: the empty id is not stored in the empty in-memory
store, and `Delete` of it returns an error. -/
theorem mem_Delete_empty_id_is_error :
    ([] : GoString) ∉ goMapKeys NewMem.items ∧
    mem.Delete NewMem [] = ((false, some (Error.Errorf "invalid id")), NewMem) := by
  constructor
  · simp [goMapKeys, NewMem]
  · simp [mem.Delete]

/-- C6, amended: for the in-memory store in any state and every id other than
the empty string, `Delete` of an id that is not stored returns false without
error and leaves the store unchanged, and `Delete` of a stored id returns
true without error and an immediately following `Delete` of the same id
returns false without error. -/
theorem mem_Delete_absent_and_twice (k : mem) (id : GoString) (hne : id ≠ []) :
    (id ∉ goMapKeys k.items → mem.Delete k id = ((false, none), k)) ∧
    (id ∈ goMapKeys k.items →
      (mem.Delete k id).1 = (true, none) ∧
      mem.Delete (mem.Delete k id).2 id = ((false, none), (mem.Delete k id).2)) := by
  constructor
  · intro hnot
    simp [mem.Delete, hne, (goMapLookup_eq_none_iff k.items id).2 hnot]
  · intro hin
    have h1 : mem.Delete k id = ((true, none), { items := goMapDelete k.items id }) := by
      simp [mem.Delete, hne, (goMapLookup_isSome_iff k.items id).2 hin]
    rw [h1]
    refine ⟨rfl, ?_⟩
    simp [mem.Delete, hne,
      (goMapLookup_eq_none_iff _ id).2 (not_mem_goMapKeys_goMapDelete k.items id)]

/-- Deleting `"a"` from the store that holds only `"a"` gives true and then
false; deleting `"b"` from it gives false and changes nothing. -/
theorem mem_Delete_absent_and_twice_witness :
    mem.Delete { items := [([97], some [1])] } [98] =
      ((false, none), { items := [([97], some [1])] }) ∧
    (mem.Delete { items := [([97], some [1])] } [97]).1 = (true, none) ∧
    mem.Delete (mem.Delete { items := [([97], some [1])] } [97]).2 [97] =
      ((false, none), (mem.Delete { items := [([97], some [1])] } [97]).2) :=
  ⟨(mem_Delete_absent_and_twice { items := [([97], some [1])] } [98] (by decide)).1
     (by decide),
   (mem_Delete_absent_and_twice { items := [([97], some [1])] } [97] (by decide)).2
     (by decide)⟩

/-! ## Listing of the in-memory store -/

theorem HasPrefix_nil (s : GoString) : strings.HasPrefix s [] = true := by
  simp [strings.HasPrefix]

theorem sort_Slice_nil_iff {α : Type} (less : α → α → Bool) (l : List α) :
    sort.Slice less l = [] ↔ l = [] := by
  constructor
  · intro h
    exact List.Perm.eq_nil (h ▸ (sort_Slice_perm less l).symm)
  · intro h
    subst h
    rfl

/-- The paths of the documents that the loop of `mem.Documents` collects are
the keys that start with the prefix, in the order of the map. -/
theorem mem_Documents_loop_paths (items : List (GoString × Bytes)) (opts : Options) :
    (items.filterMap (fun e =>
      if strings.HasPrefix e.1 opts.Prefix then
        some ({ Path := e.1, Data := if !opts.NoData then e.2 else none } : Document)
      else none)).map Document.Path =
    (goMapKeys items).filter (fun id => strings.HasPrefix id opts.Prefix) := by
  induction items with
  | nil => rfl
  | cons e rest ih =>
    by_cases h : strings.HasPrefix e.1 opts.Prefix = true
    · simp only [List.filterMap_cons, h, if_true, List.map_cons, goMapKeys, List.filter_cons]
      simp only [goMapKeys] at ih
      rw [ih]
    · simp only [List.filterMap_cons, h, if_false, goMapKeys, List.map_cons, List.filter_cons]
      simp only [goMapKeys] at ih
      simp only [Bool.false_eq_true, if_false]
      rw [ih]

/-- C7: for the in-memory store in any state and every prefix, `Documents`
returns without error a list whose paths are strictly ascending in the
bytewise lexical order, without repetition, and are exactly the stored ids
that start with the prefix: one document for each of them and none for any
other id; every document carries the bytes stored under its path (or nil when
no data is asked for); with the empty prefix the paths are exactly the stored
ids. -/
theorem mem_Documents_sorted_filtered (k : mem) (opts : Options) (hk : NodupKeys k.items) :
    (mem.Documents k opts).2 = none ∧
    ((mem.Documents k opts).1.map Document.Path).Pairwise (fun a b => strLess a b = true) ∧
    ((mem.Documents k opts).1.map Document.Path).Nodup ∧
    (∀ id : GoString, id ∈ (mem.Documents k opts).1.map Document.Path ↔
      id ∈ goMapKeys k.items ∧ strings.HasPrefix id opts.Prefix = true) ∧
    (∀ d ∈ (mem.Documents k opts).1,
      d.Data = if opts.NoData = true then none else (goMapLookup k.items d.Path).getD none) ∧
    (opts.Prefix = [] → ∀ id : GoString,
      id ∈ (mem.Documents k opts).1.map Document.Path ↔ id ∈ goMapKeys k.items) := by
  have hperm := (sort_Slice_perm lessPath (k.items.filterMap (fun e =>
      if strings.HasPrefix e.1 opts.Prefix then
        some ({ Path := e.1, Data := if !opts.NoData then e.2 else none } : Document)
      else none))).map Document.Path
  rw [mem_Documents_loop_paths] at hperm
  have hnd : ((goMapKeys k.items).filter (fun id => strings.HasPrefix id opts.Prefix)).Nodup :=
    List.Nodup.filter _ hk
  have hmem : ∀ id : GoString, id ∈ (mem.Documents k opts).1.map Document.Path ↔
      id ∈ goMapKeys k.items ∧ strings.HasPrefix id opts.Prefix = true := by
    intro id
    simp only [mem.Documents]
    rw [hperm.mem_iff, List.mem_filter]
  refine ⟨rfl, ?_, hperm.nodup_iff.2 hnd, hmem, ?_, ?_⟩
  · refine strictly_ascending_of_sorted _ (sort_Slice_lessPath_paths _) ?_
    exact hperm.nodup_iff.2 hnd
  · intro d hd
    simp only [mem.Documents] at hd
    have hd2 := (sort_Slice_perm lessPath _).mem_iff.1 hd
    rcases List.mem_filterMap.1 hd2 with ⟨e, he, hde⟩
    by_cases hp : strings.HasPrefix e.1 opts.Prefix = true
    · simp only [hp, if_true, Option.some.injEq] at hde
      subst hde
      have hlk : goMapLookup k.items e.1 = some e.2 := goMapLookup_of_mem k.items e hk he
      cases hn : opts.NoData <;> simp [hn, hlk]
    · simp [hp] at hde
  · intro hp id
    rw [hmem id]
    simp [hp, HasPrefix_nil]

/-- The store that holds `"ab"`, `"b"` and `"a"` (in that order of iteration)
lists `"a"`, `"ab"` under the prefix `"a"`. -/
theorem mem_Documents_sorted_filtered_witness :
    (mem.Documents { items := [([97, 98], some [2]), ([98], some [3]), ([97], some [1])] }
      { Prefix := [97], NoData := false }).1 =
      [{ Path := [97], Data := some [1] }, { Path := [97, 98], Data := some [2] }] ∧
    ((mem.Documents { items := [([97, 98], some [2]), ([98], some [3]), ([97], some [1])] }
      { Prefix := [97], NoData := false }).1.map Document.Path).Pairwise
        (fun a b => strLess a b = true) :=
  ⟨by decide,
   (mem_Documents_sorted_filtered
      { items := [([97, 98], some [2]), ([98], some [3]), ([97], some [1])] }
      { Prefix := [97], NoData := false } (by unfold NodupKeys goMapKeys; decide)).2.1⟩

/-! ## Reset of the in-memory store -/

theorem mem_setAll_ids_ne_nil (k0 k1 : mem) (calls : List (GoString × Bytes))
    (h : mem.setAll k0 calls = some k1) : ∀ c ∈ calls, c.1 ≠ [] := by
  induction calls generalizing k0 with
  | nil => simp
  | cons c rest ih =>
    unfold mem.setAll at h
    by_cases hs : (mem.Set k0 c.1 c.2).1 = none
    · simp only [hs, if_true] at h
      intro c2 hc2
      rcases List.mem_cons.1 hc2 with rfl | hin
      · intro hnil
        simp [mem.Set, hnil] at hs
      · exact ih _ h c2 hin
    · simp [hs] at h

/-- C8: for the in-memory store, after any run of successful `Set` calls
followed by `Reset` (which returns no error), `Documents` with no options
returns the empty list without error and `Exists` returns false without error
for every id that had been set. -/
theorem mem_Reset_clears (k0 k1 : mem) (calls : List (GoString × Bytes))
    (h : mem.setAll k0 calls = some k1) :
    (mem.Reset k1).1 = none ∧
    mem.Documents (mem.Reset k1).2 noOptions = ([], none) ∧
    (∀ c ∈ calls, mem.Exists (mem.Reset k1).2 c.1 = (false, none)) := by
  refine ⟨rfl, rfl, ?_⟩
  intro c hc
  have hne := mem_setAll_ids_ne_nil k0 k1 calls h c hc
  simp [mem.Exists, mem.Reset, hne, goMapLookup]

/-- Two items are stored in the empty store, and after `Reset` the listing is
empty and neither id exists. -/
theorem mem_Reset_clears_witness :
    mem.setAll NewMem [([97], some [1]), ([97, 98], some [2])] =
      some { items := [([97, 98], some [2]), ([97], some [1])] } ∧
    (mem.Reset { items := [([97, 98], some [2]), ([97], some [1])] }).1 = none ∧
    mem.Documents (mem.Reset { items := [([97, 98], some [2]), ([97], some [1])] }).2
      noOptions = ([], none) ∧
    (∀ c ∈ [(([97] : GoString), (some [1] : Bytes)), ([97, 98], some [2])],
      mem.Exists (mem.Reset { items := [([97, 98], some [2]), ([97], some [1])] }).2 c.1 =
        (false, none)) :=
  ⟨by decide,
   mem_Reset_clears NewMem { items := [([97, 98], some [2]), ([97], some [1])] }
     [([97], some [1]), ([97, 98], some [2])] (by decide)⟩

/-! ## Credential-manager adapter over the shared physical store -/

theorem goMapLookup_some_mem (m : List (GoString × Bytes)) (id : GoString) (b : Bytes)
    (h : goMapLookup m id = some b) : (id, b) ∈ m := by
  induction m with
  | nil => simp [goMapLookup] at h
  | cons e rest ih =>
    unfold goMapLookup at h
    by_cases he : e.1 = id
    · simp only [he, if_true, Option.some.injEq] at h
      have : e = (id, b) := Prod.ext he h
      simp [this]
    · simp only [he, if_false] at h
      exact List.mem_cons_of_mem _ (ih h)

theorem NodupKeys_goMapInsert (m : List (GoString × Bytes)) (id : GoString) (data : Bytes)
    (h : NodupKeys m) : NodupKeys (goMapInsert m id data) := by
  unfold NodupKeys goMapKeys goMapInsert
  rw [List.map_cons, List.nodup_cons]
  refine ⟨not_mem_goMapKeys_goMapDelete m id, ?_⟩
  exact List.Nodup.sublist (List.Sublist.map _ (List.filter_sublist m)) h

theorem append_slash_inj (a b x y : GoString) (ha : slash ∉ a) (hb : slash ∉ b)
    (h : a ++ slash :: x = b ++ slash :: y) : a = b ∧ x = y := by
  induction a generalizing b with
  | nil =>
    cases b with
    | nil => simpa using h
    | cons d ds =>
      simp only [List.nil_append, List.cons_append, List.cons.injEq] at h
      exact absurd (List.mem_cons.2 (Or.inl h.1)) hb
  | cons c cs ih =>
    cases b with
    | nil =>
      simp only [List.nil_append, List.cons_append, List.cons.injEq] at h
      exact absurd (List.mem_cons.2 (Or.inl h.1.symm)) ha
    | cons d ds =>
      simp only [List.cons_append, List.cons.injEq] at h
      have := ih ds (fun hh => ha (List.mem_cons_of_mem _ hh))
        (fun hh => hb (List.mem_cons_of_mem _ hh)) h.2
      exact ⟨by rw [h.1, this.1], this.2⟩

theorem HasPrefix_iff (t p : GoString) :
    strings.HasPrefix t p = true ↔ t = p ++ t.drop p.length := by
  unfold strings.HasPrefix
  rw [List.isPrefixOf_iff_prefix]
  constructor
  · rintro ⟨r, rfl⟩
    simp
  · intro h
    exact ⟨_, h.symm⟩

theorem windows_Set_mapWincred (k : windows.sys) (st : List (GoString × Bytes))
    (id : GoString) (data : Bytes) :
    windows.sys.Set mapWincred k st id data =
      (none, goMapInsert st (k.service ++ [slash] ++ id) data) := by
  simp [windows.sys.Set, mapWincred]

theorem windows_Get_mapWincred (k : windows.sys) (st : List (GoString × Bytes))
    (id : GoString) :
    windows.sys.Get mapWincred k st id =
      ((goMapLookup st (k.service ++ [slash] ++ id)).getD none, none) := by
  unfold windows.sys.Get
  simp only [mapWincred]
  cases goMapLookup st (k.service ++ [slash] ++ id) with
  | none => simp [Error.Cause]
  | some b => simp

theorem NodupKeys_windowsSetAll (st : List (GoString × Bytes))
    (calls : List (GoString × GoString × Bytes)) (h : NodupKeys st) :
    NodupKeys (windowsSetAll st calls) := by
  induction calls generalizing st with
  | nil => exact h
  | cons c rest ih =>
    unfold windowsSetAll
    rw [windows_Set_mapWincred]
    exact ih _ (NodupKeys_goMapInsert st _ _ h)

theorem mem_windowsSetAll (st : List (GoString × Bytes))
    (calls : List (GoString × GoString × Bytes)) (t : GoString) (b : Bytes)
    (h : (t, b) ∈ windowsSetAll st calls) :
    (t, b) ∈ st ∨ ∃ c ∈ calls, t = c.1 ++ [slash] ++ c.2.1 ∧ b = c.2.2 := by
  induction calls generalizing st with
  | nil => exact Or.inl h
  | cons c rest ih =>
    unfold windowsSetAll at h
    rw [windows_Set_mapWincred] at h
    rcases ih _ h with h1 | ⟨c2, hc2, hh⟩
    · simp only [goMapInsert, goMapDelete, List.mem_cons, List.mem_filter, Prod.mk.injEq] at h1
      rcases h1 with ⟨h1, h2⟩ | h1
      · exact Or.inr ⟨c, List.mem_cons_self _ _, h1, h2⟩
      · exact Or.inl h1.1
    · exact Or.inr ⟨c2, List.mem_cons_of_mem _ hc2, hh⟩

theorem mem_goMapKeys_windowsSetAll (st : List (GoString × Bytes))
    (calls : List (GoString × GoString × Bytes)) (c : GoString × GoString × Bytes)
    (hc : c ∈ calls) : c.1 ++ [slash] ++ c.2.1 ∈ goMapKeys (windowsSetAll st calls) := by
  have key : ∀ (calls : List (GoString × GoString × Bytes)) (st : List (GoString × Bytes))
      (t : GoString), t ∈ goMapKeys st → t ∈ goMapKeys (windowsSetAll st calls) := by
    intro calls
    induction calls with
    | nil => intro st t ht; exact ht
    | cons d rest ih =>
      intro st t ht
      unfold windowsSetAll
      rw [windows_Set_mapWincred]
      apply ih
      by_cases hd : t = d.1 ++ [slash] ++ d.2.1
      · simp [goMapKeys, goMapInsert, hd]
      · simp only [goMapKeys, goMapInsert, goMapDelete, List.map_cons, List.mem_cons,
          List.mem_map, List.mem_filter] at ht ⊢
        rcases ht with ⟨e, he, rfl⟩
        exact Or.inr ⟨e, ⟨he, by simpa using hd⟩, rfl⟩
  induction calls generalizing st with
  | nil => simp at hc
  | cons d rest ih =>
    unfold windowsSetAll
    rw [windows_Set_mapWincred]
    rcases List.mem_cons.1 hc with rfl | hin
    · apply key
      simp [goMapKeys, goMapInsert]
    · exact ih _ hin

/-- Over the map model `Get` never fails, so with no prefix option the loop of
`sys.Documents` appends one document for every credential whose target name
starts with `service + "/"`. -/
theorem windows_loop_mapWincred (k : windows.sys) (st : List (GoString × Bytes))
    (opts : Options) (hp : opts.Prefix = []) (creds : List Credential) (out : List Document) :
    windows.sys.Documents.loop mapWincred k st opts creds out =
      (out ++ (creds.filter (fun cred =>
          strings.HasPrefix cred.TargetName (k.service ++ [slash]))).map (fun cred =>
        ({ Path := cred.TargetName.drop (k.service ++ [slash]).length,
           Data := if opts.NoData = true then none
             else (goMapLookup st (k.service ++ [slash] ++
               cred.TargetName.drop (k.service ++ [slash]).length)).getD none } : Document)),
        none) := by
  induction creds generalizing out with
  | nil => simp [windows.sys.Documents.loop]
  | cons cred rest ih =>
    unfold windows.sys.Documents.loop
    by_cases hpre : strings.HasPrefix cred.TargetName (k.service ++ [slash]) = true
    · cases hn : opts.NoData
      · simp only [hpre, if_true, hp, ne_eq, not_true_eq_false, false_and, if_false, hn,
          Bool.not_false, windows_Get_mapWincred, ih, List.filter_cons, List.map_cons,
          List.append_assoc, List.singleton_append, Bool.false_eq_true]
      · simp only [hpre, if_true, hp, ne_eq, not_true_eq_false, false_and, if_false, hn,
          Bool.not_true, Bool.false_eq_true, ih, List.filter_cons, List.map_cons,
          List.append_assoc, List.singleton_append]
    · simp only [hpre, if_false, ih, List.filter_cons, Bool.false_eq_true]

theorem windows_Documents_mapWincred (k : windows.sys) (st : List (GoString × Bytes))
    (opts : Options) (hp : opts.Prefix = []) :
    windows.sys.Documents mapWincred k st opts =
      (sort.Slice lessPath (((st.map (fun e =>
          ({ TargetName := e.1, CredentialBlob := e.2 } : Credential))).filter (fun cred =>
          strings.HasPrefix cred.TargetName (k.service ++ [slash]))).map (fun cred =>
        ({ Path := cred.TargetName.drop (k.service ++ [slash]).length,
           Data := if opts.NoData = true then none
             else (goMapLookup st (k.service ++ [slash] ++
               cred.TargetName.drop (k.service ++ [slash]).length)).getD none } : Document))),
        none) := by
  unfold windows.sys.Documents
  rw [windows_loop_mapWincred k st opts hp]
  simp [mapWincred]

theorem windows_Documents_paths (k : windows.sys) (st l : List (GoString × Bytes))
    (opts : Options) :
    (((l.map (fun e =>
          ({ TargetName := e.1, CredentialBlob := e.2 } : Credential))).filter (fun cred =>
          strings.HasPrefix cred.TargetName (k.service ++ [slash]))).map (fun cred =>
        ({ Path := cred.TargetName.drop (k.service ++ [slash]).length,
           Data := if opts.NoData = true then none
             else (goMapLookup st (k.service ++ [slash] ++
               cred.TargetName.drop (k.service ++ [slash]).length)).getD none } :
          Document))).map Document.Path =
      ((goMapKeys l).filter (fun t => strings.HasPrefix t (k.service ++ [slash]))).map
        (fun t => t.drop (k.service ++ [slash]).length) := by
  induction l with
  | nil => rfl
  | cons e rest ih =>
    by_cases hpre : strings.HasPrefix e.1 (k.service ++ [slash]) = true
    · simp only [List.map_cons, List.filter_cons, hpre, if_true, goMapKeys] at ih ⊢
      rw [ih]
    · simp only [List.map_cons, List.filter_cons, hpre, if_false, goMapKeys,
        Bool.false_eq_true] at ih ⊢
      rw [ih]

/-- The ids listed for a service over a store with distinct target names:
they are pairwise distinct, and `id` is listed exactly when the target name
`service + "/" + id` is in the store. -/
theorem windows_listed_ids (service : GoString) (st : List (GoString × Bytes))
    (hst : NodupKeys st) :
    (((goMapKeys st).filter (fun t => strings.HasPrefix t (service ++ [slash]))).map
        (fun t => t.drop (service ++ [slash]).length)).Nodup ∧
    ∀ id : GoString,
      id ∈ ((goMapKeys st).filter (fun t => strings.HasPrefix t (service ++ [slash]))).map
        (fun t => t.drop (service ++ [slash]).length) ↔
      service ++ [slash] ++ id ∈ goMapKeys st := by
  constructor
  · refine List.Nodup.map_on ?_ (List.Nodup.filter _ hst)
    intro x hx y hy hxy
    have h1 := (HasPrefix_iff x _).1 (List.mem_filter.1 hx).2
    have h2 := (HasPrefix_iff y _).1 (List.mem_filter.1 hy).2
    rw [h1, h2, hxy]
  · intro id
    simp only [List.mem_map, List.mem_filter]
    constructor
    · rintro ⟨t, ⟨ht, hpre⟩, rfl⟩
      rw [← (HasPrefix_iff t _).1 hpre]
      exact ht
    · intro h
      refine ⟨_, ⟨h, ?_⟩, ?_⟩
      · rw [HasPrefix_iff]
        simp
      · simp

/-- C9 fails as stated: one item is set through the adapter of the service
`"a/b"` under the id `"c"`; the adapter of the service `"a"`, through which
nothing was set, lists the id `"b/c"` and returns that item for it. -/
theorem windows_service_with_slash_leaks :
    (¬ ∃ c ∈ [(([97, 47, 98] : GoString), ([99] : GoString), (some [1] : Bytes))],
      c.1 = [97]) ∧
    windows.sys.Documents mapWincred { service := [97] }
        (windowsSetAll [] [([97, 47, 98], [99], some [1])]) noOptions =
      ([{ Path := [98, 47, 99], Data := some [1] }], none) ∧
    windows.sys.Get mapWincred { service := [97] }
        (windowsSetAll [] [([97, 47, 98], [99], some [1])]) [98, 47, 99] =
      (some [1], none) := by
  refine ⟨by decide, by decide, by decide⟩

/-- C9, amended: with the physical store a map from target name to blob
shared by all services, for every service `s` without the byte `"/"` and
every run of `Set` calls made through adapters of services without the byte
`"/"`, in whatever order the physical store enumerates its credentials:
`Documents` of the adapter for `s` returns without error the ids that were
set through the adapter for `s`, each once, in strictly ascending order, and
`Get` of the adapter for `s` returns without error, giving nil or else bytes
that were set through the adapter for `s` under that id. -/
theorem windows_Documents_partition (s : GoString)
    (calls : List (GoString × GoString × Bytes)) (w : List (GoString × Bytes))
    (hw : w.Perm (windowsSetAll [] calls)) (hs : slash ∉ s)
    (hcalls : ∀ c ∈ calls, slash ∉ c.1) :
    (windows.sys.Documents mapWincred { service := s } w noOptions).2 = none ∧
    ((windows.sys.Documents mapWincred { service := s } w noOptions).1.map
      Document.Path).Pairwise (fun a b => strLess a b = true) ∧
    ((windows.sys.Documents mapWincred { service := s } w noOptions).1.map
      Document.Path).Nodup ∧
    (∀ id : GoString,
      id ∈ (windows.sys.Documents mapWincred { service := s } w noOptions).1.map
        Document.Path ↔ ∃ c ∈ calls, c.1 = s ∧ c.2.1 = id) ∧
    (∀ id : GoString,
      (windows.sys.Get mapWincred { service := s } w id).2 = none ∧
      ((windows.sys.Get mapWincred { service := s } w id).1 ≠ none →
        ∃ c ∈ calls, c.1 = s ∧ c.2.1 = id ∧
          c.2.2 = (windows.sys.Get mapWincred { service := s } w id).1)) := by
  have hfin : NodupKeys (windowsSetAll [] calls) :=
    NodupKeys_windowsSetAll [] calls (by simp [NodupKeys, goMapKeys])
  have hwk : NodupKeys w := (hw.map Prod.fst).nodup_iff.2 hfin
  have hkeys : ∀ id : GoString, s ++ [slash] ++ id ∈ goMapKeys w ↔
      ∃ c ∈ calls, c.1 = s ∧ c.2.1 = id := by
    intro id
    constructor
    · intro h
      rcases List.mem_map.1 h with ⟨e, he, hte⟩
      rcases mem_windowsSetAll [] calls e.1 e.2 (hw.mem_iff.1 he) with h0 | ⟨c, hc, ht, _⟩
      · simp at h0
      · have hinj := append_slash_inj c.1 s c.2.1 id (hcalls c hc) hs
          (by simpa using ht.symm.trans hte)
        exact ⟨c, hc, hinj.1, hinj.2⟩
    · rintro ⟨c, hc, rfl, rfl⟩
      have := mem_goMapKeys_windowsSetAll [] calls c hc
      exact ((hw.map Prod.fst).mem_iff).2 this
  have hlist := windows_listed_ids s w hwk
  have hdoc := windows_Documents_mapWincred { service := s } w noOptions rfl
  have hperm := (sort_Slice_perm lessPath (((w.map (fun e =>
          ({ TargetName := e.1, CredentialBlob := e.2 } : Credential))).filter (fun cred =>
          strings.HasPrefix cred.TargetName (s ++ [slash]))).map (fun cred =>
        ({ Path := cred.TargetName.drop (s ++ [slash]).length,
           Data := if noOptions.NoData = true then none
             else (goMapLookup w (s ++ [slash] ++
               cred.TargetName.drop (s ++ [slash]).length)).getD none } :
          Document)))).map Document.Path
  rw [windows_Documents_paths { service := s } w w noOptions] at hperm
  rw [hdoc]
  refine ⟨rfl, ?_, hperm.nodup_iff.2 hlist.1, ?_, ?_⟩
  · exact strictly_ascending_of_sorted _ (sort_Slice_lessPath_paths _)
      (hperm.nodup_iff.2 hlist.1)
  · intro id
    rw [hperm.mem_iff, hlist.2 id, hkeys id]
  · intro id
    rw [windows_Get_mapWincred]
    refine ⟨rfl, ?_⟩
    cases hl : goMapLookup w (s ++ [slash] ++ id) with
    | none => intro hne; exact absurd rfl hne
    | some b =>
      intro _
      have hmem := goMapLookup_some_mem w _ b hl
      rcases mem_windowsSetAll [] calls _ b (hw.mem_iff.1 hmem) with h0 | ⟨c, hc, ht, hb⟩
      · simp at h0
      · have hinj := append_slash_inj c.1 s c.2.1 id (hcalls c hc) hs
          (by simpa using ht.symm)
        exact ⟨c, hc, hinj.1, hinj.2, by simp [hb]⟩

/-- Items are set under the services `"s"` and `"t"`; the adapter for `"s"`
lists `"a"` and `"ab"` and nothing of `"t"`. -/
theorem windows_Documents_partition_witness :
    windows.sys.Documents mapWincred { service := [115] }
        (windowsSetAll [] [([115], [97, 98], some [2]), ([116], [99], some [3]),
          ([115], [97], some [1])]) noOptions =
      ([{ Path := [97], Data := some [1] }, { Path := [97, 98], Data := some [2] }], none) ∧
    ((windows.sys.Documents mapWincred { service := [115] }
        (windowsSetAll [] [([115], [97, 98], some [2]), ([116], [99], some [3]),
          ([115], [97], some [1])]) noOptions).1.map Document.Path).Nodup :=
  ⟨by decide,
   (windows_Documents_partition [115]
      [([115], [97, 98], some [2]), ([116], [99], some [3]), ([115], [97], some [1])]
      (windowsSetAll [] [([115], [97, 98], some [2]), ([116], [99], some [3]),
          ([115], [97], some [1])])
      (List.Perm.refl _) (by decide) (by decide)).2.2.1⟩

/-! ## Secret-service enumeration: decoding of the labels -/

theorem Split_cons (c : Byte) (cs : GoString) (sep : Byte) :
    strings.Split (c :: cs) sep =
      if c = sep then [] :: strings.Split cs sep
      else
        match strings.Split cs sep with
        | [] => [[c]]
        | w :: ws => (c :: w) :: ws := by
  rw [strings.Split]

/-- The pieces of `strings.Split`: the first piece is what precedes the first
separator, and the other pieces are those of what follows it. -/
theorem Split_eq (s : GoString) (sep : Byte) :
    strings.Split s sep =
      upTo sep s ::
        (match afterFirst sep s with
         | none => []
         | some rest => strings.Split rest sep) := by
  induction s with
  | nil => simp [strings.Split, upTo, afterFirst]
  | cons c cs ih =>
    rw [Split_cons]
    by_cases h : c = sep
    · simp [h, upTo, afterFirst]
    · rw [ih]
      simp [h, upTo, afterFirst]

theorem Split_length_lt_two (s : GoString) (sep : Byte) :
    (strings.Split s sep).length < 2 ↔ afterFirst sep s = none := by
  rw [Split_eq]
  cases afterFirst sep s with
  | none => simp
  | some rest =>
    simp only [List.length_cons]
    rw [Split_eq]
    simp

theorem Split_second (s rest : GoString) (sep : Byte) (h : afterFirst sep s = some rest) :
    ((strings.Split s sep).drop 1).headD [] = upTo sep rest := by
  rw [Split_eq, h]
  simp only [List.drop_succ_cons, List.drop_zero]
  rw [Split_eq]
  rfl

theorem secretServiceList_loop_ok {π : Type} (svc : SecretService π) (paths : List π)
    (label : π → GoString) (hL : ∀ p ∈ paths, svc.GetLabel p = (label p, none))
    (ids : List GoString) :
    linux.secretServiceList.loop svc paths ids =
      (ids ++ (paths.map label).filterMap afterFirstQuote, none) := by
  induction paths generalizing ids with
  | nil => simp [linux.secretServiceList.loop]
  | cons p rest ih =>
    have hp := hL p (List.mem_cons_self _ _)
    have hrest : ∀ q ∈ rest, svc.GetLabel q = (label q, none) :=
      fun q hq => hL q (List.mem_cons_of_mem _ hq)
    unfold linux.secretServiceList.loop
    rw [hp]
    simp only [ne_eq, not_true_eq_false, if_false, List.map_cons, List.filterMap_cons]
    cases ha : afterFirst quote (label p) with
    | none =>
      have h1 := (Split_length_lt_two (label p) quote).2 ha
      simp only [h1, if_true, afterFirstQuote, ha, Option.map_none']
      exact ih hrest ids
    | some r =>
      have h1 : ¬ (strings.Split (label p) quote).length < 2 := by
        rw [Split_length_lt_two, ha]
        simp
      simp only [h1, if_false, afterFirstQuote, ha, Option.map_some', Split_second _ _ _ ha]
      rw [ih hrest]
      simp

theorem upTo_append_sep (id tail : GoString) (sep : Byte) (h : sep ∉ id) :
    upTo sep (id ++ sep :: tail) = id := by
  induction id with
  | nil => simp [upTo]
  | cons c cs ih =>
    have hc : c ≠ sep := fun hh => h (hh ▸ List.mem_cons_self _ _)
    have ih2 := ih (fun hh => h (List.mem_cons_of_mem _ hh))
    rw [List.cons_append, upTo]
    simp only [hc, if_false]
    rw [ih2]

theorem afterFirstQuote_passwordLabel (id service : GoString) (h : quote ∉ id) :
    afterFirstQuote (passwordLabel id service) = some id := by
  have hd : afterFirst quote (passwordLabel id service) =
      some (id ++ quote :: ([32, 111, 110, 32, 39] ++ service ++ [39])) := by
    simp [afterFirst, passwordLabel, quote]
  simp only [afterFirstQuote, hd, Option.map_some']
  rw [upTo_append_sep id _ quote h]

theorem afterFirst_eq_none_iff (q : Byte) (s : GoString) :
    afterFirst q s = none ↔ q ∉ s := by
  induction s with
  | nil => simp [afterFirst]
  | cons c cs ih =>
    by_cases h : c = q
    · simp [afterFirst, h]
    · have h2 : ¬ q = c := fun hh => h hh.symm
      simp [afterFirst, h, h2, ih]

theorem secretServiceList_eq {π : Type} (svc : SecretService π) (service : GoString)
    (paths : List π) (label : π → GoString) (hU : svc.Unlock = none)
    (hS : svc.SearchItems service = (paths, none))
    (hL : ∀ p ∈ paths, svc.GetLabel p = (label p, none)) :
    linux.secretServiceList svc service =
      (sort.Strings ((paths.map label).filterMap afterFirstQuote), none) := by
  have hobj : linux.objectPaths svc service = (paths, none) := by
    simp [linux.objectPaths, hU, hS]
  unfold linux.secretServiceList
  rw [hobj, secretServiceList_loop_ok svc paths label hL]
  simp

/-- C10 fails as stated: the label `x'y` has no pair of single quotes and is
not skipped (the text after its only quote, `y`, is returned as an id); and
the label written for the id `a'b` is decoded to `a`. -/
theorem secretServiceList_unpaired_quote_and_quoted_id :
    betweenFirstQuotes [120, 39, 121] = none ∧
    linux.secretServiceList (labelService [[120, 39, 121]]) [115] = ([[121]], none) ∧
    linux.secretServiceList (labelService [passwordLabel [97, 39, 98] [115]]) [115] =
      ([[97]], none) := by
  refine ⟨by decide, by decide, by decide⟩

/-- C10, amended: when the collection unlocks, the search succeeds and every
label can be read, `secretServiceList` returns without error, in ascending
order, one id for every label that contains a single quote, namely the text
after its first single quote up to the next single quote or else up to the
end of the label, and skips every label without a single quote; for a label
with a pair of single quotes this is the substring between the first pair;
and for every id without a single quote and every service the label
`Password for '<id>' on '<service>'` is decoded back to the id. -/
theorem secretServiceList_decodes {π : Type} (svc : SecretService π) (service : GoString)
    (paths : List π) (label : π → GoString) (hU : svc.Unlock = none)
    (hS : svc.SearchItems service = (paths, none))
    (hL : ∀ p ∈ paths, svc.GetLabel p = (label p, none)) :
    (linux.secretServiceList svc service).2 = none ∧
    (linux.secretServiceList svc service).1.Pairwise (fun a b => strLess b a = false) ∧
    (linux.secretServiceList svc service).1.Perm
      ((paths.map label).filterMap afterFirstQuote) ∧
    (∀ l r : GoString, betweenFirstQuotes l = some r → afterFirstQuote l = some r) ∧
    (∀ l : GoString, afterFirstQuote l = none ↔ quote ∉ l) ∧
    (∀ id service2 : GoString, quote ∉ id →
      linux.secretServiceList (labelService [passwordLabel id service2]) service2 =
        ([id], none)) := by
  rw [secretServiceList_eq svc service paths label hU hS hL]
  refine ⟨rfl, ?_, ?_, ?_, ?_, ?_⟩
  · exact sort_Slice_sorted strLess strLess_irrefl strLess_trans _
  · exact sort_Slice_perm strLess _
  · intro l r h
    unfold betweenFirstQuotes at h
    unfold afterFirstQuote
    cases ha : afterFirst quote l with
    | none => simp [ha] at h
    | some rest =>
      simp only [ha] at h
      by_cases hq : quote ∈ rest
      · simp only [hq, if_true] at h
        simpa using h
      · simp [hq] at h
  · intro l
    rw [← afterFirst_eq_none_iff]
    unfold afterFirstQuote
    cases afterFirst quote l <;> simp
  · intro id service2 hid
    rw [secretServiceList_eq (labelService [passwordLabel id service2]) service2
      [passwordLabel id service2] (fun l => l) rfl rfl (fun _ _ => rfl)]
    have h1 : ([passwordLabel id service2].map (fun l => l)).filterMap afterFirstQuote =
        [id] := by
      simp only [List.map_cons, List.map_nil, List.filterMap_cons,
        afterFirstQuote_passwordLabel id service2 hid, List.filterMap_nil]
    rw [h1]
    rfl

/-- The labels written for the ids `"b"` and `"a"`, with a label without a
quote between them, are decoded to `"a"`, `"b"`. -/
theorem secretServiceList_decodes_witness :
    linux.secretServiceList
        (labelService [passwordLabel [98] [115], [110, 111], passwordLabel [97] [115]]) [115] =
      ([[97], [98]], none) ∧
    (linux.secretServiceList
        (labelService [passwordLabel [98] [115], [110, 111], passwordLabel [97] [115]])
        [115]).1.Pairwise (fun a b => strLess b a = false) :=
  ⟨by decide,
   (secretServiceList_decodes
      (labelService [passwordLabel [98] [115], [110, 111], passwordLabel [97] [115]]) [115]
      [passwordLabel [98] [115], [110, 111], passwordLabel [97] [115]] (fun l => l)
      rfl rfl (fun _ _ => rfl)).2.1⟩

end keyring
